import Mathlib

/-!
Verification of the stream session engine of `asyncssh/stream.py`
(class `SSHStreamSession` and the reader/writer handles built on it).

The embedding is shallow and faithful to the Python source:

* a data chunk is a list of units (`Chunk := List Nat`), covering both the
  bytes and the decoded-text encoding of the channel uniformly;
* a receive-queue item is either a data chunk or a terminal error marker
  (`QItem`), mirroring the Python queues that mix `bytes`/`str` chunks with
  `Exception` objects;
* the session state (`SessionState`) carries exactly the attributes set up in
  `SSHStreamSession.__init__` / `connection_made` that the verified claims
  touch: `recv_buf` (per-datatype queues), `recv_buf_len` (an `Int`, since
  Python integers are unbounded and the code freely subtracts), the
  `eof_received` / `connection_lost` / `write_paused` flags, the recorded
  `exception`, the per-datatype `read_waiter` slot (modelled as a `Bool`:
  whether a waiter future is parked there), the count of `drain_waiters`,
  and the receive-window `limit`;
* the calls the session makes on its channel (`pause_reading`,
  `resume_reading`) are recorded as an output list of `ChanAction`s;
* the coroutines `read` and `readline` are modelled by their single
  scheduling pass (`read_pass` / `readline_pass`): the body of the
  `while True:` loop up to the point where the call either finishes,
  raises, or suspends in `_block_read`.  When `eof_received` is set the
  Python loop always exits after one pass, so for post-EOF states a pass
  is the whole call.
-/

namespace AsyncSSH

/-- A contiguous chunk of payload units (bytes, or characters when the
channel has an encoding). -/
abbrev Chunk := List Nat

/-- A datatype tag identifying a sub-stream of the channel (the primary
stream plus any extended-data streams such as stderr). -/
abbrev Datatype := Nat

/-- The exceptions that flow through the stream session: transport errors
recorded at connection loss (identified by an abstract code),
`asyncio.IncompleteReadError` with its `partial` and `expected` fields,
`BrokenPipeError`, and the `RuntimeError` raised on a second concurrent
read. -/
inductive Exc where
  | transport (code : Nat)
  | incompleteRead (part : Chunk) (expected : Nat)
  | brokenPipe
  | runtimeError
deriving DecidableEq, Repr

/-- An item of a per-datatype receive queue: a data chunk, or a terminal
error marker appended by `connection_lost`. -/
inductive QItem where
  | chunk (d : Chunk)
  | exc (e : Exc)
deriving DecidableEq, Repr

/-- Flow-control requests the session issues to its channel. -/
inductive ChanAction where
  | pauseReading
  | resumeReading
deriving DecidableEq, Repr

/-- Total payload length of the data chunks in a queue; terminal error
markers contribute nothing. -/
def dataLen : List QItem → Nat
  | [] => 0
  | QItem.chunk d :: rest => d.length + dataLen rest
  | QItem.exc _ :: rest => dataLen rest

/-- Whether a queue item is a data chunk (as opposed to a terminal error
marker). -/
def isChunk : QItem → Bool
  | QItem.chunk _ => true
  | QItem.exc _ => false

/-- A queue that holds only data chunks (no terminal markers). -/
def allData (q : List QItem) : Prop := ∀ i ∈ q, isChunk i = true

instance (q : List QItem) : Decidable (allData q) :=
  inferInstanceAs (Decidable (∀ i ∈ q, isChunk i = true))

/-- Concatenation of the payload of the data chunks of a queue, in order. -/
def dataJoin : List QItem → Chunk
  | [] => []
  | QItem.chunk d :: rest => d ++ dataJoin rest
  | QItem.exc _ :: rest => dataJoin rest

/-- State of one `SSHStreamSession`, as initialised by `__init__` and
`connection_made`.  `dtypes` is the fixed key set of the `_recv_buf` and
`_read_waiter` dictionaries. -/
structure SessionState where
  limit : Int
  exception : Option Exc
  eof_received : Bool
  connection_lost : Bool
  dtypes : Finset Datatype
  recv_buf : Datatype → List QItem
  recv_buf_len : Int
  read_waiter : Datatype → Bool
  write_paused : Bool
  drain_waiters : Nat

/-- The state `connection_made` leaves the session in: empty queue and free
waiter slot for every declared datatype, `recv_buf_len` zero, limit set to
the channel's receive window. -/
def connection_made (limit : Int) (dtypes : Finset Datatype) : SessionState :=
  { limit := limit
    exception := none
    eof_received := false
    connection_lost := false
    dtypes := dtypes
    recv_buf := fun _ => []
    recv_buf_len := 0
    read_waiter := fun _ => false
    write_paused := false
    drain_waiters := 0 }

/-- `_unblock_read`: resolve and clear the waiter slot of a datatype if one
is parked there. -/
def unblock_read (s : SessionState) (dt : Datatype) : SessionState :=
  if s.read_waiter dt then
    { s with read_waiter := Function.update s.read_waiter dt false }
  else s

/-- `_block_read`: raise `RuntimeError` if a waiter is already parked on
this datatype; otherwise park a fresh waiter and suspend.  Returns the
state after parking, or the exception. -/
def block_read (s : SessionState) (dt : Datatype) : Except Exc SessionState :=
  if s.read_waiter dt then
    Except.error Exc.runtimeError
  else
    Except.ok { s with read_waiter := Function.update s.read_waiter dt true }

/-- `_unblock_drain`: resolve every parked drain waiter and empty the
collection. -/
def unblock_drain (s : SessionState) : SessionState :=
  { s with drain_waiters := 0 }

/-- `data_received`: append the chunk to the datatype's queue, grow
`recv_buf_len`, wake a pending reader, and request `pause_reading` when
the aggregate length has reached the limit. -/
def data_received (s : SessionState) (d : Chunk) (dt : Datatype) :
    SessionState × List ChanAction :=
  let s1 : SessionState :=
    { s with
      recv_buf := Function.update s.recv_buf dt (s.recv_buf dt ++ [QItem.chunk d])
      recv_buf_len := s.recv_buf_len + d.length }
  let s2 := unblock_read s1 dt
  (s2, if s2.recv_buf_len ≥ s2.limit then [ChanAction.pauseReading] else [])

/-- `eof_received`: set the EOF flag and wake the pending reader of every
datatype.  (The Python method also returns `True` to the channel.) -/
def eof_received_cb (s : SessionState) : SessionState :=
  { s with
    eof_received := true
    read_waiter := fun d => if d ∈ s.dtypes then false else s.read_waiter d }

/-- `connection_lost`: record the loss and the error; if EOF had not been
received, append the error (when there is one) to every datatype's queue
and perform EOF handling; wake all drain waiters if writing was paused. -/
def connection_lost_cb (s : SessionState) (e : Option Exc) : SessionState :=
  let s1 : SessionState := { s with connection_lost := true, exception := e }
  let s2 : SessionState :=
    if s1.eof_received then s1
    else
      eof_received_cb
        (match e with
         | some err =>
             { s1 with
               recv_buf := fun d =>
                 if d ∈ s1.dtypes then s1.recv_buf d ++ [QItem.exc err]
                 else s1.recv_buf d }
         | none => s1)
  if s2.write_paused then unblock_drain s2 else s2

/-- `at_eof`: true when EOF has been received and this datatype's queue is
the empty list. -/
def at_eof (s : SessionState) (dt : Datatype) : Bool :=
  s.eof_received && (s.recv_buf dt).isEmpty

/-- `pause_writing` callback. -/
def pause_writing (s : SessionState) : SessionState :=
  { s with write_paused := true }

/-- `resume_writing` callback: clear the flag and wake all drain waiters. -/
def resume_writing (s : SessionState) : SessionState :=
  unblock_drain { s with write_paused := false }

/-- Result of the inner draining loop of `read` (`while recv_buf and n != 0`).
`raised` is the exception thrown out of the loop (a terminal marker popped
with no data accumulated), `acc` the chunks appended to `data`, `queue` the
queue left behind, `n` the remaining count, `consumed` the total number of
units removed from the queue (the amount subtracted from `recv_buf_len`). -/
structure ReadLoopOut where
  raised : Option Exc
  acc : List Chunk
  queue : List QItem
  n : Int
  consumed : Nat
deriving Repr

/-- The inner loop of `SSHStreamSession.read`: pop chunks from the front
while the queue is nonempty and `n` is not zero; a terminal marker at the
front breaks the loop when data has been accumulated and is raised
otherwise; a chunk longer than a positive remaining `n` is split in place,
its prefix consumed and its suffix left at the head. -/
def read_loop (q : List QItem) (n : Int) (acc : List Chunk) (consumed : Nat) :
    ReadLoopOut :=
  match q with
  | [] => ⟨none, acc, [], n, consumed⟩
  | item :: rest =>
    if n = 0 then ⟨none, acc, item :: rest, n, consumed⟩
    else
      match item with
      | QItem.exc e =>
          if acc = [] then ⟨some e, acc, rest, n, consumed⟩
          else ⟨none, acc, item :: rest, n, consumed⟩
      | QItem.chunk d =>
          if n > 0 ∧ (d.length : Int) > n then
            ⟨none, acc ++ [d.take n.toNat],
             QItem.chunk (d.drop n.toNat) :: rest, 0, consumed + n.toNat⟩
          else
            read_loop rest (n - d.length) (acc ++ [d]) (consumed + d.length)

/-- How one scheduling pass of a `read`/`readline` coroutine ends: with a
returned value, with a raised exception, or suspended in `_block_read`
(waiter parked, to be resumed by a later callback). -/
inductive PassResult where
  | done (r : Chunk)
  | raised (e : Exc)
  | suspended
deriving DecidableEq, Repr

/-- The session state, the flow-control actions issued, and the way the
pass ended. -/
structure PassOut where
  s : SessionState
  acts : List ChanAction
  result : PassResult

/-- One pass of `SSHStreamSession.read(n, datatype, exact)`: run the inner
drain loop, update `recv_buf` and `recv_buf_len`; on a raised terminal
marker propagate it at once (skipping the watermark check); otherwise
request `resume_reading` when `recv_buf_len` has fallen strictly below the
limit, then either exit the outer loop (raising `IncompleteReadError` when
an exact read is still short) or suspend in `_block_read`. -/
def read_pass (s : SessionState) (n : Int) (dt : Datatype) (exact : Bool) :
    PassOut :=
  let r := read_loop (s.recv_buf dt) n [] 0
  let s1 : SessionState :=
    { s with
      recv_buf := Function.update s.recv_buf dt r.queue
      recv_buf_len := s.recv_buf_len - r.consumed }
  match r.raised with
  | some e => ⟨s1, [], PassResult.raised e⟩
  | none =>
    let acts := if s1.recv_buf_len < s1.limit then [ChanAction.resumeReading] else []
    if r.n = 0 ∨ (r.n > 0 ∧ r.acc ≠ [] ∧ exact = false) ∨ s1.eof_received then
      let buf := r.acc.flatten
      if r.n > 0 ∧ exact then
        ⟨s1, acts, PassResult.raised (Exc.incompleteRead buf (buf.length + r.n.toNat))⟩
      else
        ⟨s1, acts, PassResult.done buf⟩
    else
      match block_read s1 dt with
      | Except.error e => ⟨s1, acts, PassResult.raised e⟩
      | Except.ok s2 => ⟨s2, acts, PassResult.suspended⟩

/-- Result of the inner loop of `readline` (`while recv_buf`): either the
loop returned a finished line (`found = true`, with the line's chunks in
`acc` and a possibly shortened chunk left at the queue head), or it
stopped for another reason: a raised marker, a deferred marker at the
front with data accumulated (`deferred = true`), or an exhausted queue. -/
structure ReadlineLoopOut where
  raised : Option Exc
  found : Bool
  deferred : Bool
  acc : List Chunk
  queue : List QItem
  consumed : Nat
deriving Repr

/-- The inner loop of `SSHStreamSession.readline`: scan the head chunk for
the line separator; on a match split the chunk right after the separator
and finish; otherwise pop the whole chunk and continue; a terminal marker
at the front finishes the call at once when data has been accumulated
(deferring the marker) and is raised otherwise. -/
def readline_loop (sep : Nat) (q : List QItem) (acc : List Chunk)
    (consumed : Nat) : ReadlineLoopOut :=
  match q with
  | [] => ⟨none, false, false, acc, [], consumed⟩
  | item :: rest =>
    match item with
    | QItem.exc e =>
        if acc = [] then ⟨some e, false, false, acc, rest, consumed⟩
        else ⟨none, false, true, acc, item :: rest, consumed⟩
    | QItem.chunk d =>
        match d.findIdx? (· = sep) with
        | some i =>
            ⟨none, true, false, acc ++ [d.take (i + 1)],
             QItem.chunk (d.drop (i + 1)) :: rest, consumed + (i + 1)⟩
        | none =>
            readline_loop sep rest (acc ++ [d]) (consumed + d.length)

/-- One pass of `SSHStreamSession.readline(datatype)`.  The separator is a
single newline unit in both channel encodings.  A found line performs the
watermark check and returns; a deferred terminal marker returns the
accumulated data WITHOUT the watermark check (the Python `return` inside
the `isinstance` branch precedes the check); a raised marker propagates at
once; an exhausted queue performs the check, returns the accumulated data
at EOF, and suspends in `_block_read` otherwise. -/
def readline_pass (s : SessionState) (dt : Datatype) : PassOut :=
  let sep : Nat := 10
  let r := readline_loop sep (s.recv_buf dt) [] 0
  let s1 : SessionState :=
    { s with
      recv_buf := Function.update s.recv_buf dt r.queue
      recv_buf_len := s.recv_buf_len - r.consumed }
  match r.raised with
  | some e => ⟨s1, [], PassResult.raised e⟩
  | none =>
    if r.deferred then
      ⟨s1, [], PassResult.done r.acc.flatten⟩
    else
      let acts :=
        if s1.recv_buf_len < s1.limit then [ChanAction.resumeReading] else []
      if r.found then
        ⟨s1, acts, PassResult.done r.acc.flatten⟩
      else if s1.eof_received then
        ⟨s1, acts, PassResult.done r.acc.flatten⟩
      else
        match block_read s1 dt with
        | Except.error e => ⟨s1, acts, PassResult.raised e⟩
        | Except.ok s2 => ⟨s2, acts, PassResult.suspended⟩

/-- Whether `drain()` suspends: writing is paused and the connection is not
yet lost. -/
def drain_suspends (s : SessionState) : Bool :=
  s.write_paused && !s.connection_lost

/-- The state after `drain()` either suspends on a fresh drain waiter or
falls through immediately. -/
def drain_enter (s : SessionState) : SessionState :=
  if drain_suspends s then { s with drain_waiters := s.drain_waiters + 1 }
  else s

/-- The check `drain()` performs after waking (or immediately when it did
not suspend): raise the recorded exception when the connection is lost, or
a `BrokenPipeError` when none was recorded but writing is still paused;
otherwise return normally (`none`). -/
def drain_finish (s : SessionState) : Option Exc :=
  if s.connection_lost then
    match s.exception with
    | some e => some e
    | none => if s.write_paused then some Exc.brokenPipe else none
  else none

/-- Deliver a sequence of chunks on one datatype through `data_received`,
discarding the flow-control actions. -/
def deliver (s : SessionState) (ds : List Chunk) (dt : Datatype) : SessionState :=
  ds.foldl (fun s d => (data_received s d dt).1) s

/-- A read-side call a consumer can issue on one datatype: a non-exact
`read(n)` or a `readline()`. -/
inductive ReadOp where
  | read (n : Int)
  | readline
deriving DecidableEq, Repr

/-- Run one consumer call on the session. -/
def run_read_op (s : SessionState) (dt : Datatype) : ReadOp → PassOut
  | ReadOp.read n => read_pass s n dt false
  | ReadOp.readline => readline_pass s dt

/-- The chunk a finished pass returned (empty for a raise or suspension). -/
def passChunk : PassResult → Chunk
  | PassResult.done r => r
  | _ => []

/-- Run a script of consumer calls on one datatype, collecting the data
each call returned. -/
def run_script (s : SessionState) (dt : Datatype) :
    List ReadOp → List Chunk × SessionState
  | [] => ([], s)
  | op :: ops =>
      let po := run_read_op s dt op
      let rest := run_script po.s dt ops
      (passChunk po.result :: rest.1, rest.2)

/-- An observable step of the session: a channel callback or one scheduling
pass of a consumer call. -/
inductive Op where
  | dataRx (d : Chunk) (dt : Datatype)
  | eofRx
  | connLost (e : Option Exc)
  | readStep (n : Int) (dt : Datatype) (exact : Bool)
  | readlineStep (dt : Datatype)
deriving Repr

/-- Apply one step to the session state. -/
def apply_op (s : SessionState) : Op → SessionState
  | Op.dataRx d dt => (data_received s d dt).1
  | Op.eofRx => eof_received_cb s
  | Op.connLost e => connection_lost_cb s e
  | Op.readStep n dt exact => (read_pass s n dt exact).s
  | Op.readlineStep dt => (readline_pass s dt).s

/-- Apply a sequence of steps to the session state. -/
def apply_ops (s : SessionState) : List Op → SessionState
  | [] => s
  | op :: ops => apply_ops (apply_op s op) ops

/-- The datatype an op addresses, if any. -/
def opDatatype : Op → Option Datatype
  | Op.dataRx _ dt => some dt
  | Op.readStep _ dt _ => some dt
  | Op.readlineStep dt => some dt
  | _ => none

/-- All ops of a script address datatypes the session declares. -/
def validOps (dtypes : Finset Datatype) (ops : List Op) : Prop :=
  ∀ op ∈ ops, ∀ dt, opDatatype op = some dt → dt ∈ dtypes

instance (dtypes : Finset Datatype) (ops : List Op) :
    Decidable (validOps dtypes ops) :=
  inferInstanceAs (Decidable (∀ op ∈ ops, ∀ dt, opDatatype op = some dt → dt ∈ dtypes))

/-- The buffer-length invariant: `recv_buf_len` equals the sum over all
declared datatypes of the payload lengths of their buffered data chunks,
terminal markers excluded, and undeclared datatypes hold nothing. -/
def bufInv (s : SessionState) : Prop :=
  s.recv_buf_len = s.dtypes.sum (fun d => (dataLen (s.recv_buf d) : Int)) ∧
  ∀ d, d ∉ s.dtypes → s.recv_buf d = []

/-! ### Basic queue lemmas -/

theorem dataLen_append (a b : List QItem) :
    dataLen (a ++ b) = dataLen a + dataLen b := by
  induction a with
  | nil => simp [dataLen]
  | cons i rest ih => cases i <;> simp [dataLen, ih] <;> omega

theorem dataJoin_append (a b : List QItem) :
    dataJoin (a ++ b) = dataJoin a ++ dataJoin b := by
  induction a with
  | nil => simp [dataJoin]
  | cons i rest ih => cases i <;> simp [dataJoin, ih]

theorem dataJoin_map_chunk (ds : List Chunk) :
    dataJoin (ds.map QItem.chunk) = ds.flatten := by
  induction ds with
  | nil => simp [dataJoin]
  | cons d rest ih => simp [dataJoin, ih]

theorem allData_map_chunk (ds : List Chunk) : allData (ds.map QItem.chunk) := by
  intro i hi
  simp only [List.mem_map] at hi
  obtain ⟨d, _, rfl⟩ := hi
  rfl

theorem allData_cons {i : QItem} {q : List QItem} (h : allData (i :: q)) :
    isChunk i = true ∧ allData q :=
  ⟨h i (List.mem_cons_self i q), fun j hj => h j (List.mem_cons_of_mem i hj)⟩

/-! ### Lemmas about the inner loop of `read` -/

theorem read_loop_consumed (q : List QItem) : ∀ n acc c,
    (read_loop q n acc c).consumed + dataLen (read_loop q n acc c).queue =
      c + dataLen q := by
  induction q with
  | nil => intro n acc c; simp [read_loop, dataLen]
  | cons item rest ih =>
    intro n acc c
    by_cases hn : n = 0
    · simp [read_loop, hn]
    · cases item with
      | exc e =>
        by_cases ha : acc = [] <;> simp [read_loop, hn, ha, dataLen]
      | chunk d =>
        by_cases hs : n > 0 ∧ (d.length : Int) > n
        · simp only [read_loop, if_neg hn, if_pos hs]
          simp [dataLen]
          omega
        · simp only [read_loop, if_neg hn, if_neg hs]
          have := ih (n - d.length) (acc ++ [d]) (c + d.length)
          simp [dataLen]
          omega

theorem read_loop_flatten (q : List QItem) : ∀ n acc c,
    (read_loop q n acc c).acc.flatten ++ dataJoin (read_loop q n acc c).queue =
      acc.flatten ++ dataJoin q := by
  induction q with
  | nil => intro n acc c; simp [read_loop, dataJoin]
  | cons item rest ih =>
    intro n acc c
    by_cases hn : n = 0
    · simp [read_loop, hn]
    · cases item with
      | exc e =>
        by_cases ha : acc = [] <;> simp [read_loop, hn, ha, dataJoin]
      | chunk d =>
        by_cases hs : n > 0 ∧ (d.length : Int) > n
        · simp only [read_loop, if_neg hn, if_pos hs]
          simp [dataJoin]
          rw [← List.append_assoc, List.take_append_drop]
        · simp only [read_loop, if_neg hn, if_neg hs]
          have := ih (n - d.length) (acc ++ [d]) (c + d.length)
          simpa [dataJoin] using this

theorem read_loop_n (q : List QItem) : ∀ n acc c,
    (read_loop q n acc c).n + ((read_loop q n acc c).consumed : Int) =
      n + c := by
  induction q with
  | nil => intro n acc c; simp [read_loop]
  | cons item rest ih =>
    intro n acc c
    by_cases hn : n = 0
    · simp [read_loop, hn]
    · cases item with
      | exc e =>
        by_cases ha : acc = [] <;> simp [read_loop, hn, ha]
      | chunk d =>
        by_cases hs : n > 0 ∧ (d.length : Int) > n
        · simp only [read_loop, if_neg hn, if_pos hs]
          simp
          omega
        · simp only [read_loop, if_neg hn, if_neg hs]
          have := ih (n - d.length) (acc ++ [d]) (c + d.length)
          push_cast at this ⊢
          omega

theorem read_loop_acc_len (q : List QItem) : ∀ n acc c,
    (read_loop q n acc c).acc.flatten.length + c =
      acc.flatten.length + (read_loop q n acc c).consumed := by
  induction q with
  | nil => intro n acc c; simp [read_loop]
  | cons item rest ih =>
    intro n acc c
    by_cases hn : n = 0
    · simp [read_loop, hn]
    · cases item with
      | exc e =>
        by_cases ha : acc = [] <;> simp [read_loop, hn, ha]
      | chunk d =>
        by_cases hs : n > 0 ∧ (d.length : Int) > n
        · simp only [read_loop, if_neg hn, if_pos hs]
          simp
          omega
        · simp only [read_loop, if_neg hn, if_neg hs]
          have := ih (n - d.length) (acc ++ [d]) (c + d.length)
          simp at this ⊢
          omega

theorem read_loop_raised_none (q : List QItem) (h : allData q) : ∀ n acc c,
    (read_loop q n acc c).raised = none := by
  induction q with
  | nil => intro n acc c; simp [read_loop]
  | cons item rest ih =>
    intro n acc c
    obtain ⟨hi, hrest⟩ := allData_cons h
    by_cases hn : n = 0
    · simp [read_loop, hn]
    · cases item with
      | exc e => simp [isChunk] at hi
      | chunk d =>
        by_cases hs : n > 0 ∧ (d.length : Int) > n
        · simp [read_loop, if_neg hn, if_pos hs]
        · simp only [read_loop, if_neg hn, if_neg hs]
          exact ih hrest _ _ _

theorem read_loop_allData (q : List QItem) (h : allData q) : ∀ n acc c,
    allData (read_loop q n acc c).queue := by
  induction q with
  | nil => intro n acc c; simp [read_loop]; intro i hi; simp at hi
  | cons item rest ih =>
    intro n acc c
    obtain ⟨hi, hrest⟩ := allData_cons h
    by_cases hn : n = 0
    · simpa [read_loop, hn] using h
    · cases item with
      | exc e => simp [isChunk] at hi
      | chunk d =>
        by_cases hs : n > 0 ∧ (d.length : Int) > n
        · simp only [read_loop, if_neg hn, if_pos hs]
          intro i hmem
          rcases List.mem_cons.mp hmem with h1 | h2
          · subst h1; rfl
          · exact hrest i h2
        · simp only [read_loop, if_neg hn, if_neg hs]
          exact ih hrest _ _ _

theorem read_loop_neg (q : List QItem) (h : allData q) : ∀ n acc c, n < 0 →
    (read_loop q n acc c).queue = [] := by
  induction q with
  | nil => intro n acc c _; simp [read_loop]
  | cons item rest ih =>
    intro n acc c hneg
    obtain ⟨hi, hrest⟩ := allData_cons h
    have hn : ¬ n = 0 := by omega
    cases item with
    | exc e => simp [isChunk] at hi
    | chunk d =>
      have hs : ¬ (n > 0 ∧ (d.length : Int) > n) := by omega
      simp only [read_loop, if_neg hn, if_neg hs]
      exact ih hrest _ _ _ (by omega)

theorem read_loop_ge (q : List QItem) (h : allData q) : ∀ n acc c, 0 ≤ n →
    n ≤ (dataLen q : Int) → (read_loop q n acc c).n = 0 := by
  induction q with
  | nil =>
    intro n acc c h0 hle
    simp [dataLen] at hle
    simp [read_loop]
    omega
  | cons item rest ih =>
    intro n acc c h0 hle
    obtain ⟨hi, hrest⟩ := allData_cons h
    by_cases hn : n = 0
    · simp [read_loop, hn]
    · cases item with
      | exc e => simp [isChunk] at hi
      | chunk d =>
        by_cases hs : n > 0 ∧ (d.length : Int) > n
        · simp [read_loop, if_neg hn, if_pos hs]
        · simp only [read_loop, if_neg hn, if_neg hs]
          apply ih hrest
          · omega
          · simp [dataLen] at hle
            push_cast
            omega

theorem read_loop_lt (q : List QItem) (h : allData q) : ∀ n acc c, 0 ≤ n →
    (dataLen q : Int) < n → (read_loop q n acc c).queue = [] := by
  induction q with
  | nil => intro n acc c _ _; simp [read_loop]
  | cons item rest ih =>
    intro n acc c h0 hlt
    obtain ⟨hi, hrest⟩ := allData_cons h
    have hn : ¬ n = 0 := by
      have := Int.natCast_nonneg (dataLen (item :: rest))
      omega
    cases item with
    | exc e => simp [isChunk] at hi
    | chunk d =>
      simp [dataLen] at hlt
      have hs : ¬ (n > 0 ∧ (d.length : Int) > n) := by push_cast at hlt ⊢; omega
      simp only [read_loop, if_neg hn, if_neg hs]
      apply ih hrest
      · push_cast at hlt ⊢; omega
      · push_cast at hlt ⊢; omega

theorem read_loop_defer (e : Exc) (rest : List QItem) (n : Int) (acc : List Chunk)
    (c : Nat) (hacc : acc ≠ []) :
    read_loop (QItem.exc e :: rest) n acc c =
      ⟨none, acc, QItem.exc e :: rest, n, c⟩ := by
  by_cases hn : n = 0
  · simp [read_loop, hn]
  · simp [read_loop, hn, hacc]

theorem read_loop_raise (e : Exc) (rest : List QItem) (n : Int) (c : Nat)
    (hn : n ≠ 0) :
    read_loop (QItem.exc e :: rest) n [] c = ⟨some e, [], rest, n, c⟩ := by
  simp [read_loop, hn]

/-! ### Lemmas about the inner loop of `readline` -/

theorem readline_loop_consumed (sep : Nat) (q : List QItem) : ∀ acc c,
    (readline_loop sep q acc c).consumed +
        dataLen (readline_loop sep q acc c).queue = c + dataLen q := by
  induction q with
  | nil => intro acc c; simp [readline_loop, dataLen]
  | cons item rest ih =>
    intro acc c
    cases item with
    | exc e =>
      by_cases ha : acc = [] <;> simp [readline_loop, ha, dataLen]
    | chunk d =>
      cases hf : d.findIdx? (· = sep) with
      | some i =>
        have hi : i < d.length :=
          (List.findIdx?_eq_some_iff_findIdx_eq.mp hf).1
        simp only [readline_loop, hf]
        simp [dataLen]
        omega
      | none =>
        simp only [readline_loop, hf]
        have := ih (acc ++ [d]) (c + d.length)
        simp [dataLen]
        omega

theorem readline_loop_flatten (sep : Nat) (q : List QItem) : ∀ acc c,
    (readline_loop sep q acc c).acc.flatten ++
        dataJoin (readline_loop sep q acc c).queue =
      acc.flatten ++ dataJoin q := by
  induction q with
  | nil => intro acc c; simp [readline_loop, dataJoin]
  | cons item rest ih =>
    intro acc c
    cases item with
    | exc e =>
      by_cases ha : acc = [] <;> simp [readline_loop, ha, dataJoin]
    | chunk d =>
      cases hf : d.findIdx? (· = sep) with
      | some i =>
        simp only [readline_loop, hf]
        simp [dataJoin]
        rw [← List.append_assoc, List.take_append_drop]
      | none =>
        simp only [readline_loop, hf]
        have := ih (acc ++ [d]) (c + d.length)
        simpa [dataJoin] using this

theorem readline_loop_no_raise (sep : Nat) (q : List QItem) (h : allData q) :
    ∀ acc c, (readline_loop sep q acc c).raised = none ∧
      (readline_loop sep q acc c).deferred = false := by
  induction q with
  | nil => intro acc c; simp [readline_loop]
  | cons item rest ih =>
    intro acc c
    obtain ⟨hi, hrest⟩ := allData_cons h
    cases item with
    | exc e => simp [isChunk] at hi
    | chunk d =>
      cases hf : d.findIdx? (· = sep) with
      | some i => simp [readline_loop, hf]
      | none =>
        simp only [readline_loop, hf]
        exact ih hrest _ _

theorem readline_loop_allData (sep : Nat) (q : List QItem) (h : allData q) :
    ∀ acc c, allData (readline_loop sep q acc c).queue := by
  induction q with
  | nil => intro acc c i hi; simp [readline_loop] at hi
  | cons item rest ih =>
    intro acc c
    obtain ⟨hd, hrest⟩ := allData_cons h
    cases item with
    | exc e => simp [isChunk] at hd
    | chunk d =>
      cases hf : d.findIdx? (· = sep) with
      | some i =>
        simp only [readline_loop, hf]
        intro j hj
        rcases List.mem_cons.mp hj with h1 | h2
        · subst h1; rfl
        · exact hrest j h2
      | none =>
        simp only [readline_loop, hf]
        exact ih hrest _ _

theorem readline_loop_nosep (sep : Nat) (q : List QItem) (h : allData q)
    (hsep : ∀ d, QItem.chunk d ∈ q → d.findIdx? (· = sep) = none) : ∀ acc c,
    (readline_loop sep q acc c).found = false ∧
      (readline_loop sep q acc c).queue = [] := by
  induction q with
  | nil => intro acc c; simp [readline_loop]
  | cons item rest ih =>
    intro acc c
    obtain ⟨hd, hrest⟩ := allData_cons h
    cases item with
    | exc e => simp [isChunk] at hd
    | chunk d =>
      have hf : d.findIdx? (· = sep) = none :=
        hsep d (List.mem_cons_self _ _)
      simp only [readline_loop, hf]
      exact ih hrest (fun d' hd' => hsep d' (List.mem_cons_of_mem _ hd')) _ _

theorem readline_loop_sep_found (sep : Nat) (ds : List Chunk)
    (hds : ∀ d ∈ ds, d.findIdx? (· = sep) = none) (dL : Chunk) (i : Nat)
    (hi : dL.findIdx? (· = sep) = some i) (rest : List QItem) : ∀ acc c,
    readline_loop sep (ds.map QItem.chunk ++ QItem.chunk dL :: rest) acc c =
      ⟨none, true, false, acc ++ ds ++ [dL.take (i + 1)],
       QItem.chunk (dL.drop (i + 1)) :: rest, c + dataLen (ds.map QItem.chunk) + (i + 1)⟩ := by
  induction ds with
  | nil =>
    intro acc c
    simp only [List.map_nil, List.nil_append, readline_loop, hi]
    simp [dataLen]
  | cons d ds ih =>
    intro acc c
    have hf : d.findIdx? (· = sep) = none := hds d (List.mem_cons_self _ _)
    simp only [List.map_cons, List.cons_append, readline_loop, hf, List.append_eq]
    rw [ih (fun d' hd' => hds d' (List.mem_cons_of_mem _ hd')) (acc ++ [d]) (c + d.length)]
    simp [dataLen]
    omega

theorem readline_loop_defer (sep : Nat) (e : Exc) (rest : List QItem)
    (acc : List Chunk) (c : Nat) (hacc : acc ≠ []) :
    readline_loop sep (QItem.exc e :: rest) acc c =
      ⟨none, false, true, acc, QItem.exc e :: rest, c⟩ := by
  simp [readline_loop, hacc]

theorem readline_loop_raise (sep : Nat) (e : Exc) (rest : List QItem) (c : Nat) :
    readline_loop sep (QItem.exc e :: rest) [] c =
      ⟨some e, false, false, [], rest, c⟩ := by
  simp [readline_loop]

/-! ### State effect of one pass of `read` and `readline` -/

theorem read_pass_state (s : SessionState) (n : Int) (dt : Datatype) (exact : Bool) :
    (read_pass s n dt exact).s.recv_buf =
        Function.update s.recv_buf dt (read_loop (s.recv_buf dt) n [] 0).queue ∧
    (read_pass s n dt exact).s.recv_buf_len =
        s.recv_buf_len - (read_loop (s.recv_buf dt) n [] 0).consumed ∧
    (read_pass s n dt exact).s.eof_received = s.eof_received ∧
    (read_pass s n dt exact).s.dtypes = s.dtypes ∧
    (read_pass s n dt exact).s.limit = s.limit ∧
    (read_pass s n dt exact).s.connection_lost = s.connection_lost ∧
    (read_pass s n dt exact).s.exception = s.exception ∧
    (read_pass s n dt exact).s.write_paused = s.write_paused ∧
    (read_pass s n dt exact).s.drain_waiters = s.drain_waiters := by
  cases hr : (read_loop (s.recv_buf dt) n [] 0).raised with
  | some e => simp [read_pass, hr]
  | none =>
    simp only [read_pass, hr]
    split_ifs <;> simp [block_read] <;> split_ifs <;> simp

theorem readline_pass_state (s : SessionState) (dt : Datatype) :
    (readline_pass s dt).s.recv_buf =
        Function.update s.recv_buf dt (readline_loop 10 (s.recv_buf dt) [] 0).queue ∧
    (readline_pass s dt).s.recv_buf_len =
        s.recv_buf_len - (readline_loop 10 (s.recv_buf dt) [] 0).consumed ∧
    (readline_pass s dt).s.eof_received = s.eof_received ∧
    (readline_pass s dt).s.dtypes = s.dtypes ∧
    (readline_pass s dt).s.limit = s.limit ∧
    (readline_pass s dt).s.connection_lost = s.connection_lost ∧
    (readline_pass s dt).s.exception = s.exception ∧
    (readline_pass s dt).s.write_paused = s.write_paused ∧
    (readline_pass s dt).s.drain_waiters = s.drain_waiters := by
  cases hr : (readline_loop 10 (s.recv_buf dt) [] 0).raised with
  | some e => simp [readline_pass, hr]
  | none =>
    simp only [readline_pass, hr]
    split_ifs <;> simp [block_read] <;> split_ifs <;> simp

theorem read_pass_eof_nonexact (s : SessionState) (n : Int) (dt : Datatype)
    (heof : s.eof_received = true) (had : allData (s.recv_buf dt)) :
    (read_pass s n dt false).result =
      PassResult.done ((read_loop (s.recv_buf dt) n [] 0).acc.flatten) := by
  have hr := read_loop_raised_none (s.recv_buf dt) had n [] 0
  simp only [read_pass, hr]
  have : ({ s with
      recv_buf := Function.update s.recv_buf dt (read_loop (s.recv_buf dt) n [] 0).queue
      recv_buf_len :=
        s.recv_buf_len - (read_loop (s.recv_buf dt) n [] 0).consumed } : SessionState).eof_received = true := heof
  split_ifs with h1 h2 h3 <;> simp_all

theorem readline_pass_eof (s : SessionState) (dt : Datatype)
    (heof : s.eof_received = true) (had : allData (s.recv_buf dt)) :
    (readline_pass s dt).result =
      PassResult.done ((readline_loop 10 (s.recv_buf dt) [] 0).acc.flatten) := by
  obtain ⟨hr, hdef⟩ := readline_loop_no_raise 10 (s.recv_buf dt) had [] 0
  simp only [readline_pass, hr, hdef]
  split_ifs with h1 h2 <;> simp_all

/-! ### State effect of the channel callbacks -/

theorem data_received_state (s : SessionState) (d : Chunk) (dt : Datatype) :
    (data_received s d dt).1.recv_buf =
        Function.update s.recv_buf dt (s.recv_buf dt ++ [QItem.chunk d]) ∧
    (data_received s d dt).1.recv_buf_len = s.recv_buf_len + d.length ∧
    (data_received s d dt).1.eof_received = s.eof_received ∧
    (data_received s d dt).1.dtypes = s.dtypes ∧
    (data_received s d dt).1.limit = s.limit ∧
    (data_received s d dt).1.connection_lost = s.connection_lost ∧
    (data_received s d dt).1.exception = s.exception ∧
    (data_received s d dt).1.write_paused = s.write_paused ∧
    (data_received s d dt).1.drain_waiters = s.drain_waiters := by
  simp only [data_received, unblock_read]
  split_ifs <;> simp

theorem deliver_state (ds : List Chunk) (dt : Datatype) : ∀ s : SessionState,
    (deliver s ds dt).recv_buf dt = s.recv_buf dt ++ ds.map QItem.chunk ∧
    (deliver s ds dt).eof_received = s.eof_received ∧
    (deliver s ds dt).dtypes = s.dtypes ∧
    (deliver s ds dt).limit = s.limit := by
  induction ds with
  | nil => intro s; simp [deliver]
  | cons d rest ih =>
    intro s
    have hstep := data_received_state s d dt
    have := ih (data_received s d dt).1
    simp only [deliver, List.foldl_cons] at *
    refine ⟨?_, ?_, ?_, ?_⟩ <;>
      simp_all [Function.update_same]

/-! ### Running scripts of consumer calls after EOF (order preservation) -/

theorem run_read_op_eof (s : SessionState) (dt : Datatype) (op : ReadOp)
    (heof : s.eof_received = true) (had : allData (s.recv_buf dt)) :
    (run_read_op s dt op).result = PassResult.done (passChunk (run_read_op s dt op).result) ∧
    passChunk (run_read_op s dt op).result ++ dataJoin ((run_read_op s dt op).s.recv_buf dt) =
      dataJoin (s.recv_buf dt) ∧
    allData ((run_read_op s dt op).s.recv_buf dt) ∧
    (run_read_op s dt op).s.eof_received = true := by
  cases op with
  | read n =>
    have hres := read_pass_eof_nonexact s n dt heof had
    have hst := read_pass_state s n dt false
    have hq : (read_pass s n dt false).s.recv_buf dt =
        (read_loop (s.recv_buf dt) n [] 0).queue := by
      rw [hst.1]; simp [Function.update_same]
    refine ⟨?_, ?_, ?_, ?_⟩
    · simp [run_read_op, hres, passChunk]
    · simp only [run_read_op, hres, passChunk, hq]
      simpa using read_loop_flatten (s.recv_buf dt) n [] 0
    · simp only [run_read_op, hq]
      exact read_loop_allData _ had n [] 0
    · simp only [run_read_op]
      rw [hst.2.2.1]; exact heof
  | readline =>
    have hres := readline_pass_eof s dt heof had
    have hst := readline_pass_state s dt
    have hq : (readline_pass s dt).s.recv_buf dt =
        (readline_loop 10 (s.recv_buf dt) [] 0).queue := by
      rw [hst.1]; simp [Function.update_same]
    refine ⟨?_, ?_, ?_, ?_⟩
    · simp [run_read_op, hres, passChunk]
    · simp only [run_read_op, hres, passChunk, hq]
      simpa using readline_loop_flatten 10 (s.recv_buf dt) [] 0
    · simp only [run_read_op, hq]
      exact readline_loop_allData _ _ had [] 0
    · simp only [run_read_op]
      rw [hst.2.2.1]; exact heof

theorem run_script_eof (dt : Datatype) (ops : List ReadOp) : ∀ s : SessionState,
    s.eof_received = true → allData (s.recv_buf dt) →
    (run_script s dt ops).1.flatten ++ dataJoin ((run_script s dt ops).2.recv_buf dt) =
      dataJoin (s.recv_buf dt) ∧
    allData ((run_script s dt ops).2.recv_buf dt) ∧
    (run_script s dt ops).2.eof_received = true := by
  induction ops with
  | nil => intro s heof had; simp [run_script, heof, had]
  | cons op ops ih =>
    intro s heof had
    obtain ⟨hdone, hjoin, had', heof'⟩ := run_read_op_eof s dt op heof had
    obtain ⟨ihjoin, ihad, iheof⟩ := ih (run_read_op s dt op).s heof' had'
    refine ⟨?_, ?_, ?_⟩
    · simp only [run_script, List.flatten_cons, List.append_assoc]
      rw [ihjoin, hjoin]
    · simpa [run_script] using ihad
    · simpa [run_script] using iheof

theorem read_pass_eof_readall (s : SessionState) (dt : Datatype)
    (heof : s.eof_received = true) (had : allData (s.recv_buf dt)) :
    (read_pass s (-1) dt false).result = PassResult.done (dataJoin (s.recv_buf dt)) ∧
    (read_pass s (-1) dt false).s.recv_buf dt = [] := by
  have hq : (read_loop (s.recv_buf dt) (-1) [] 0).queue = [] :=
    read_loop_neg _ had (-1) [] 0 (by omega)
  have hres := read_pass_eof_nonexact s (-1) dt heof had
  have hfl := read_loop_flatten (s.recv_buf dt) (-1) [] 0
  rw [hq] at hfl
  simp [dataJoin] at hfl
  constructor
  · rw [hres, hfl]
  · rw [(read_pass_state s (-1) dt false).1]
    simp [Function.update_same, hq]

/-! ### Claim C1 -/

/-- C1: for every sequence of `data_received` calls delivering chunks on a
single datatype (no terminal error queued), the concatenation of the results
of any subsequent script of non-exact `read` and `readline` calls, closed by
a final `read(-1)` after EOF, equals the concatenation of the delivered
chunks — the same bytes in the same order, regardless of chunk boundaries;
the final read returns all remaining buffered data and leaves the queue
empty. -/
theorem C1_order_preservation (limit : Int) (dtypes : Finset Datatype)
    (dt : Datatype) (chunks : List Chunk) (ops : List ReadOp)
    (hdt : dt ∈ dtypes) :
    let s0 := eof_received_cb (deliver (connection_made limit dtypes) chunks dt)
    let sc := run_script s0 dt ops
    let fin := read_pass sc.2 (-1) dt false
    (sc.1 ++ [passChunk fin.result]).flatten = chunks.flatten ∧
    fin.result = PassResult.done (dataJoin (sc.2.recv_buf dt)) ∧
    fin.s.recv_buf dt = [] := by
  intro s0 sc fin
  have hbuf : s0.recv_buf dt = chunks.map QItem.chunk := by
    show (eof_received_cb _).recv_buf dt = _
    simp only [eof_received_cb]
    rw [(deliver_state chunks dt (connection_made limit dtypes)).1]
    simp [connection_made]
  have heof : s0.eof_received = true := rfl
  have had : allData (s0.recv_buf dt) := by
    rw [hbuf]; exact allData_map_chunk chunks
  obtain ⟨hjoin, had', heof'⟩ := run_script_eof dt ops s0 heof had
  obtain ⟨hfin, hempty⟩ := read_pass_eof_readall sc.2 dt heof' had'
  refine ⟨?_, hfin, hempty⟩
  calc (sc.1 ++ [passChunk fin.result]).flatten
      = sc.1.flatten ++ passChunk fin.result := by simp
    _ = sc.1.flatten ++ dataJoin (sc.2.recv_buf dt) := by
        rw [show passChunk fin.result = dataJoin (sc.2.recv_buf dt) by
          rw [hfin]; rfl]
    _ = dataJoin (s0.recv_buf dt) := hjoin
    _ = chunks.flatten := by rw [hbuf, dataJoin_map_chunk]

/-- Witness for C1 at a concrete instance: three chunks delivered with
uneven boundaries, then a readline, a one-unit read and a closing full
read recover exactly the delivered bytes. -/
theorem C1_order_preservation_witness :
    0 ∈ ({0} : Finset Datatype) ∧
    (let s0 := eof_received_cb
        (deliver (connection_made 100 {0}) [[65, 66], [67, 10], [68]] 0)
     let sc := run_script s0 0 [ReadOp.readline, ReadOp.read 1]
     let fin := read_pass sc.2 (-1) 0 false
     (sc.1 ++ [passChunk fin.result]).flatten =
        ([[65, 66], [67, 10], [68]] : List Chunk).flatten ∧
     fin.result = PassResult.done (dataJoin (sc.2.recv_buf 0)) ∧
     fin.s.recv_buf 0 = []) :=
  ⟨by decide,
   C1_order_preservation 100 {0} 0 [[65, 66], [67, 10], [68]]
     [ReadOp.readline, ReadOp.read 1] (by decide)⟩

/-! ### Claim C2 -/

/-- C2: after EOF, an exact read of `n > 0` units on an error-free queue
either returns exactly `n` units (when at least `n` are buffered) or raises
`IncompleteReadError` whose `partial` data plus reported shortfall
(`expected - partial.length`) equals `n`. -/
theorem C2_exact_read (s : SessionState) (dt : Datatype) (n : Nat) (hn : 0 < n)
    (heof : s.eof_received = true) (had : allData (s.recv_buf dt)) :
    ((n : Int) ≤ (dataLen (s.recv_buf dt) : Int) →
      ∃ r, (read_pass s n dt true).result = PassResult.done r ∧ r.length = n) ∧
    ((dataLen (s.recv_buf dt) : Int) < (n : Int) →
      ∃ part expected,
        (read_pass s n dt true).result =
          PassResult.raised (Exc.incompleteRead part expected) ∧
        part.length < expected ∧ part.length + (expected - part.length) = n) := by
  have hr : (read_loop (s.recv_buf dt) (n : Int) [] 0).raised = none :=
    read_loop_raised_none _ had _ [] 0
  have hn' := read_loop_n (s.recv_buf dt) (n : Int) [] 0
  have hlen := read_loop_acc_len (s.recv_buf dt) (n : Int) [] 0
  have hcons := read_loop_consumed (s.recv_buf dt) (n : Int) [] 0
  constructor
  · intro hge
    have hrn : (read_loop (s.recv_buf dt) (n : Int) [] 0).n = 0 :=
      read_loop_ge _ had _ [] 0 (by positivity) hge
    refine ⟨(read_loop (s.recv_buf dt) (n : Int) [] 0).acc.flatten, ?_, ?_⟩
    · simp only [read_pass, hr]
      rw [if_pos (Or.inl hrn)]
      rw [if_neg (by simp [hrn])]
    · simp only [List.flatten_nil, List.length_nil, Nat.zero_add] at hlen
      rw [hrn] at hn'
      simp at hn'
      omega
  · intro hlt
    have hq : (read_loop (s.recv_buf dt) (n : Int) [] 0).queue = [] :=
      read_loop_lt _ had _ [] 0 (by positivity) hlt
    rw [hq] at hcons
    simp only [dataLen, Nat.add_zero, Nat.zero_add] at hcons
    have hpos : (read_loop (s.recv_buf dt) (n : Int) [] 0).n > 0 := by omega
    refine ⟨(read_loop (s.recv_buf dt) (n : Int) [] 0).acc.flatten,
      (read_loop (s.recv_buf dt) (n : Int) [] 0).acc.flatten.length +
        (read_loop (s.recv_buf dt) (n : Int) [] 0).n.toNat, ?_, ?_, ?_⟩
    · simp only [read_pass, hr]
      rw [if_pos (Or.inr (Or.inr (by exact heof)))]
      rw [if_pos (by simp [hpos])]
    · omega
    · simp only [List.flatten_nil, List.length_nil, Nat.zero_add] at hlen
      omega

/-- Witness for C2: limit 100, chunks of sizes 2 and 1 delivered then EOF;
a 3-unit exact read succeeds exactly, and on a shorter buffer an exact read
for 5 raises the incomplete-read error with partial length 3 and shortfall
2. -/
theorem C2_exact_read_witness :
    ∃ r, (read_pass
        (eof_received_cb (deliver (connection_made 100 {0}) [[7, 8], [9]] 0))
        (3 : Nat) 0 true).result = PassResult.done r ∧ r.length = 3 := by
  have h := C2_exact_read
    (eof_received_cb (deliver (connection_made 100 {0}) [[7, 8], [9]] 0))
    0 3 (by decide) (by decide) (by decide)
  exact h.1 (by decide)

/-! ### Claim C3 -/

/-- C3 counterexample: deliver the chunk `[65]`, then lose the connection
with a transport error, so the queue is `[chunk [65], error]` and EOF is
set.  An exact read of 5 units accumulates `[65]`, meets the error marker
at the front — and then raises `IncompleteReadError` rather than returning
the accumulated data, contradicting the claim that whenever the front item
is a terminal error and data has been accumulated "the call stops and
returns the accumulated data".  (The error marker is indeed left at the
head.) -/
theorem C3_counterexample :
    (connection_lost_cb ((data_received (connection_made 100 {0}) [65] 0).1)
        (some (Exc.transport 7))).recv_buf 0 =
      [QItem.chunk [65], QItem.exc (Exc.transport 7)] ∧
    (connection_lost_cb ((data_received (connection_made 100 {0}) [65] 0).1)
        (some (Exc.transport 7))).eof_received = true ∧
    (read_pass (connection_lost_cb
        ((data_received (connection_made 100 {0}) [65] 0).1)
        (some (Exc.transport 7))) 5 0 true).result =
      PassResult.raised (Exc.incompleteRead [65] 5) ∧
    (∀ r, (read_pass (connection_lost_cb
        ((data_received (connection_made 100 {0}) [65] 0).1)
        (some (Exc.transport 7))) 5 0 true).result ≠ PassResult.done r) ∧
    (read_pass (connection_lost_cb
        ((data_received (connection_made 100 {0}) [65] 0).1)
        (some (Exc.transport 7))) 5 0 true).s.recv_buf 0 =
      [QItem.exc (Exc.transport 7)] := by
  refine ⟨by decide, by decide, by decide, ?_, by decide⟩
  intro r h
  have : (read_pass (connection_lost_cb
      ((data_received (connection_made 100 {0}) [65] 0).1)
      (some (Exc.transport 7))) 5 0 true).result =
      PassResult.raised (Exc.incompleteRead [65] 5) := by decide
  rw [this] at h
  exact PassResult.noConfusion h

/-- C3 amended: whenever the front item of the queue is a terminal error
marker, a call that has already accumulated data stops consuming and
leaves the error at the head: a non-exact read (part a) and a readline
(part c) return the accumulated data, while an exact read still short
raises the incomplete-read error carrying it (part b); with no data
accumulated the error is removed and raised, by read for any `n ≠ 0` and
by readline (parts d, e); after EOF with an empty queue, non-exact reads
and readlines return empty results, so a consumed error is never seen
again (part f). -/
theorem C3_deferred_error_amended :
    (∀ (s : SessionState) (dt : Datatype) (d : Chunk) (e : Exc)
        (rest : List QItem) (n : Int),
      s.recv_buf dt = QItem.chunk d :: QItem.exc e :: rest →
      d ≠ [] → (d.length : Int) < n →
      (read_pass s n dt false).result = PassResult.done d ∧
      (read_pass s n dt false).s.recv_buf dt = QItem.exc e :: rest) ∧
    (∀ (s : SessionState) (dt : Datatype) (d : Chunk) (e : Exc)
        (rest : List QItem) (n : Int),
      s.recv_buf dt = QItem.chunk d :: QItem.exc e :: rest →
      d ≠ [] → (d.length : Int) < n → s.eof_received = true →
      (read_pass s n dt true).result =
        PassResult.raised
          (Exc.incompleteRead d (d.length + (n - d.length).toNat)) ∧
      (read_pass s n dt true).s.recv_buf dt = QItem.exc e :: rest) ∧
    (∀ (s : SessionState) (dt : Datatype) (d : Chunk) (e : Exc)
        (rest : List QItem),
      s.recv_buf dt = QItem.chunk d :: QItem.exc e :: rest →
      d ≠ [] → d.findIdx? (· = 10) = none →
      (readline_pass s dt).result = PassResult.done d ∧
      (readline_pass s dt).s.recv_buf dt = QItem.exc e :: rest) ∧
    (∀ (s : SessionState) (dt : Datatype) (e : Exc) (rest : List QItem)
        (n : Int) (exact : Bool),
      s.recv_buf dt = QItem.exc e :: rest → n ≠ 0 →
      (read_pass s n dt exact).result = PassResult.raised e ∧
      (read_pass s n dt exact).s.recv_buf dt = rest) ∧
    (∀ (s : SessionState) (dt : Datatype) (e : Exc) (rest : List QItem),
      s.recv_buf dt = QItem.exc e :: rest →
      (readline_pass s dt).result = PassResult.raised e ∧
      (readline_pass s dt).s.recv_buf dt = rest) ∧
    (∀ (s : SessionState) (dt : Datatype) (n : Int),
      s.recv_buf dt = [] → s.eof_received = true →
      (read_pass s n dt false).result = PassResult.done [] ∧
      (readline_pass s dt).result = PassResult.done []) := by
  have hbuf : ∀ (s : SessionState) (dt : Datatype) (q : List QItem),
      Function.update s.recv_buf dt q dt = q := fun s dt q =>
    Function.update_same dt q s.recv_buf
  refine ⟨?_, ?_, ?_, ?_, ?_, ?_⟩
  · intro s dt d e rest n hq hd hlen
    have hl : read_loop (s.recv_buf dt) n [] 0 =
        ⟨none, [d], QItem.exc e :: rest, n - d.length, d.length⟩ := by
      rw [hq]
      have hn : ¬ n = 0 := by omega
      have hs : ¬ (n > 0 ∧ (d.length : Int) > n) := by omega
      simp only [read_loop, if_neg hn, if_neg hs]
      have h1 : ¬ (n - (d.length : Int) = 0) := by omega
      simp [h1]
    constructor
    · simp only [read_pass, hl]
      rw [if_pos (Or.inr (Or.inl ⟨by omega, by simp, by trivial⟩))]
      rw [if_neg (by simp)]
      simp
    · rw [(read_pass_state s n dt false).1, hl, hbuf]
  · intro s dt d e rest n hq hd hlen heof
    have hl : read_loop (s.recv_buf dt) n [] 0 =
        ⟨none, [d], QItem.exc e :: rest, n - d.length, d.length⟩ := by
      rw [hq]
      have hn : ¬ n = 0 := by omega
      have hs : ¬ (n > 0 ∧ (d.length : Int) > n) := by omega
      simp only [read_loop, if_neg hn, if_neg hs]
      have h1 : ¬ (n - (d.length : Int) = 0) := by omega
      simp [h1]
    constructor
    · simp only [read_pass, hl]
      rw [if_pos (Or.inr (Or.inr heof))]
      rw [if_pos ⟨by omega, by trivial⟩]
      simp
    · rw [(read_pass_state s n dt true).1, hl, hbuf]
  · intro s dt d e rest hq hd hsep
    have hl : readline_loop 10 (s.recv_buf dt) [] 0 =
        ⟨none, false, true, [d], QItem.exc e :: rest, d.length⟩ := by
      rw [hq]
      simp only [readline_loop, hsep]
      simp [readline_loop_defer 10 e rest [d] (0 + d.length) (by simp)]
    constructor
    · simp only [readline_pass, hl]
      simp
    · rw [(readline_pass_state s dt).1, hl, hbuf]
  · intro s dt e rest n exact hq hn
    have hl : read_loop (s.recv_buf dt) n [] 0 = ⟨some e, [], rest, n, 0⟩ := by
      rw [hq]; exact read_loop_raise e rest n 0 hn
    constructor
    · simp only [read_pass, hl]
    · rw [(read_pass_state s n dt exact).1, hl, hbuf]
  · intro s dt e rest hq
    have hl : readline_loop 10 (s.recv_buf dt) [] 0 =
        ⟨some e, false, false, [], rest, 0⟩ := by
      rw [hq]; exact readline_loop_raise 10 e rest 0
    constructor
    · simp only [readline_pass, hl]
    · rw [(readline_pass_state s dt).1, hl, hbuf]
  · intro s dt n hq heof
    constructor
    · have hl : read_loop (s.recv_buf dt) n [] 0 = ⟨none, [], [], n, 0⟩ := by
        rw [hq]; simp [read_loop]
      simp only [read_pass, hl]
      rw [if_pos (Or.inr (Or.inr heof))]
      rw [if_neg (by simp)]
      simp
    · have hl : readline_loop 10 (s.recv_buf dt) [] 0 =
          ⟨none, false, false, [], [], 0⟩ := by
        rw [hq]; simp [readline_loop]
      simp only [readline_pass, hl]
      simp only [if_neg (Bool.false_ne_true)]
      simp [heof]

/-- Witness for the amended C3: on the counterexample state the non-exact
read returns the accumulated `[65]` leaving the error at the head. -/
theorem C3_deferred_error_amended_witness :
    (read_pass (connection_lost_cb
        ((data_received (connection_made 100 {0}) [65] 0).1)
        (some (Exc.transport 7))) 5 0 false).result = PassResult.done [65] ∧
    (read_pass (connection_lost_cb
        ((data_received (connection_made 100 {0}) [65] 0).1)
        (some (Exc.transport 7))) 5 0 false).s.recv_buf 0 =
      [QItem.exc (Exc.transport 7)] :=
  C3_deferred_error_amended.1 _ 0 [65] (Exc.transport 7) [] 5
    (by decide) (by decide) (by decide)

/-! ### Claim C4 -/

/-- C4: readline scans successive head chunks for the line separator; on a
match it splits the chunk immediately after the separator, returns all
accumulated data including the portion ending with the separator, and
leaves the remainder at the queue head (part a); at EOF with no separator
found it returns whatever was accumulated, possibly empty, without raising
(part b); in particular, after delivering `AB`, `C\n`, `DE` the first
readline returns `ABC\n` and a further readline after EOF returns `DE`
(part c). -/
theorem C4_readline_semantics :
    (∀ (s : SessionState) (dt : Datatype) (ds : List Chunk) (dL : Chunk)
        (i : Nat) (rest : List QItem),
      s.recv_buf dt = ds.map QItem.chunk ++ QItem.chunk dL :: rest →
      (∀ d ∈ ds, d.findIdx? (· = 10) = none) →
      dL.findIdx? (· = 10) = some i →
      (readline_pass s dt).result =
        PassResult.done (ds.flatten ++ dL.take (i + 1)) ∧
      (readline_pass s dt).s.recv_buf dt =
        QItem.chunk (dL.drop (i + 1)) :: rest) ∧
    (∀ (s : SessionState) (dt : Datatype) (ds : List Chunk),
      s.recv_buf dt = ds.map QItem.chunk →
      (∀ d ∈ ds, d.findIdx? (· = 10) = none) →
      s.eof_received = true →
      (readline_pass s dt).result = PassResult.done ds.flatten ∧
      (readline_pass s dt).s.recv_buf dt = []) ∧
    ((readline_pass
        (deliver (connection_made 100 {0}) [[65, 66], [67, 10], [68, 69]] 0)
        0).result = PassResult.done [65, 66, 67, 10] ∧
     (readline_pass (eof_received_cb
        (readline_pass
          (deliver (connection_made 100 {0}) [[65, 66], [67, 10], [68, 69]] 0)
          0).s) 0).result = PassResult.done [68, 69]) := by
  refine ⟨?_, ?_, by decide, by decide⟩
  · intro s dt ds dL i rest hq hds hi
    have hl := readline_loop_sep_found 10 ds hds dL i hi rest [] 0
    rw [← hq] at hl
    constructor
    · simp only [readline_pass, hl]
      simp
    · rw [(readline_pass_state s dt).1, hl]
      simp [Function.update_same]
  · intro s dt ds hq hds heof
    have had : allData (s.recv_buf dt) := by rw [hq]; exact allData_map_chunk ds
    have hres := readline_pass_eof s dt heof had
    obtain ⟨hfound, hqueue⟩ := readline_loop_nosep 10 (s.recv_buf dt)
      had (by intro d hd; rw [hq] at hd; exact hds d (by simpa using hd)) [] 0
    have hfl := readline_loop_flatten 10 (s.recv_buf dt) [] 0
    rw [hqueue] at hfl
    simp only [dataJoin, List.append_nil, List.flatten_nil, List.nil_append] at hfl
    constructor
    · rw [hres, hfl, hq, dataJoin_map_chunk]
    · rw [(readline_pass_state s dt).1, hqueue]
      simp [Function.update_same]

/-- Witness for C4: the general separator lemma applied to the scenario
queue `AB`, `C\n`, `DE` splits right after the newline. -/
theorem C4_readline_semantics_witness :
    (readline_pass
        (deliver (connection_made 100 {0}) [[65, 66], [67, 10], [68, 69]] 0)
        0).result = PassResult.done (([[65, 66]] : List Chunk).flatten ++ [67, 10].take 2) ∧
    (readline_pass
        (deliver (connection_made 100 {0}) [[65, 66], [67, 10], [68, 69]] 0)
        0).s.recv_buf 0 =
      QItem.chunk ([67, 10].drop 2) :: [QItem.chunk [68, 69]] :=
  C4_readline_semantics.1 _ 0 [[65, 66]] [67, 10] 1 [QItem.chunk [68, 69]]
    (by decide) (by decide) (by decide)

/-! ### Claim C9 -/

/-- C9: `at_eof(datatype)` returns true if and only if EOF has been
received on the session and that datatype's queue holds no further items;
in particular after the `eof_received` callback it is true exactly when the
queue is empty. -/
theorem C9_at_eof_iff (s : SessionState) (dt : Datatype) :
    (at_eof s dt = true ↔ s.eof_received = true ∧ s.recv_buf dt = []) ∧
    (at_eof (eof_received_cb s) dt = true ↔ s.recv_buf dt = []) := by
  constructor
  · simp [at_eof, List.isEmpty_iff]
  · simp [at_eof, eof_received_cb, List.isEmpty_iff]

/-! ### Claim C10 -/

/-- C10: when readline consumes a line whose separator is the last unit of
the head chunk, a zero-length chunk remains at the queue head; after EOF,
`at_eof` is false even though no payload units remain, while a subsequent
read or readline still returns only the remaining real data — the empty
chunk contributes nothing.  Shown on the chunk `AB\n` alone and with a
trailing chunk `CD`. -/
theorem C10_empty_chunk_at_head :
    (readline_pass (deliver (connection_made 100 {0}) [[65, 66, 10]] 0)
        0).result = PassResult.done [65, 66, 10] ∧
    (readline_pass (deliver (connection_made 100 {0}) [[65, 66, 10]] 0)
        0).s.recv_buf 0 = [QItem.chunk []] ∧
    (let s2 := eof_received_cb
        (readline_pass (deliver (connection_made 100 {0}) [[65, 66, 10]] 0) 0).s
     dataLen (s2.recv_buf 0) = 0 ∧
     s2.eof_received = true ∧
     at_eof s2 0 = false ∧
     (read_pass s2 (-1) 0 false).result = PassResult.done [] ∧
     (readline_pass s2 0).result = PassResult.done [] ∧
     at_eof (read_pass s2 (-1) 0 false).s 0 = true) ∧
    (read_pass
        (eof_received_cb
          (readline_pass
            (deliver (connection_made 100 {0}) [[65, 66, 10], [67, 68]] 0)
            0).s)
        (-1) 0 false).result = PassResult.done [67, 68] := by
  refine ⟨by decide, by decide, ⟨by decide, by decide, by decide,
    by decide, by decide, by decide⟩, by decide⟩

/-! ### Claim C5 -/

theorem read_pass_acts (s : SessionState) (n : Int) (dt : Datatype)
    (exact : Bool) (hr : (read_loop (s.recv_buf dt) n [] 0).raised = none) :
    (read_pass s n dt exact).acts =
      if s.recv_buf_len - (read_loop (s.recv_buf dt) n [] 0).consumed < s.limit
      then [ChanAction.resumeReading] else [] := by
  simp only [read_pass, hr]
  split_ifs <;> simp [block_read] <;> split_ifs <;> simp_all

theorem readline_pass_acts (s : SessionState) (dt : Datatype)
    (hr : (readline_loop 10 (s.recv_buf dt) [] 0).raised = none)
    (hdef : (readline_loop 10 (s.recv_buf dt) [] 0).deferred = false) :
    (readline_pass s dt).acts =
      if s.recv_buf_len - (readline_loop 10 (s.recv_buf dt) [] 0).consumed < s.limit
      then [ChanAction.resumeReading] else [] := by
  simp only [readline_pass, hr, hdef]
  split_ifs <;> (try simp_all) <;> (unfold block_read; split_ifs <;> simp_all)

/-- C5 counterexample: with `limit = 3`, deliver `AB` and `CD` (4 units
buffered) and lose the connection with an error, so the queue is
`[AB, CD, error]`.  A readline drains all 4 units and returns them via the
deferred-error path: the buffered length (0) is strictly below the limit
after this draining pass, yet `resume_reading` is NOT requested,
contradicting the claimed "if and only if". -/
theorem C5_counterexample :
    (connection_lost_cb (deliver (connection_made 3 {0}) [[65, 66], [67, 68]] 0)
        (some (Exc.transport 9))).recv_buf_len = 4 ∧
    (readline_pass (connection_lost_cb
        (deliver (connection_made 3 {0}) [[65, 66], [67, 68]] 0)
        (some (Exc.transport 9))) 0).result = PassResult.done [65, 66, 67, 68] ∧
    (readline_pass (connection_lost_cb
        (deliver (connection_made 3 {0}) [[65, 66], [67, 68]] 0)
        (some (Exc.transport 9))) 0).s.recv_buf_len <
      (connection_lost_cb (deliver (connection_made 3 {0}) [[65, 66], [67, 68]] 0)
        (some (Exc.transport 9))).limit ∧
    (readline_pass (connection_lost_cb
        (deliver (connection_made 3 {0}) [[65, 66], [67, 68]] 0)
        (some (Exc.transport 9))) 0).acts = [] := by
  refine ⟨by decide, by decide, by decide, by decide⟩

/-- C5 amended: `pause_reading` is requested by `data_received` iff the
buffered length after the append has reached the limit (part a); a pass of
`read` on an error-free queue requests `resume_reading` iff the buffered
length after the drain is strictly below the limit, and never requests a
pause (part b); likewise for `readline` (part c); however, a pass that
pops a queued terminal error (read or readline) or returns early to defer
one (readline) skips the watermark check and requests nothing (parts d-f). -/
theorem C5_watermark_amended :
    (∀ (s : SessionState) (d : Chunk) (dt : Datatype),
      (ChanAction.pauseReading ∈ (data_received s d dt).2 ↔
        (data_received s d dt).1.recv_buf_len ≥ s.limit) ∧
      ChanAction.resumeReading ∉ (data_received s d dt).2) ∧
    (∀ (s : SessionState) (n : Int) (dt : Datatype) (exact : Bool),
      allData (s.recv_buf dt) →
      (ChanAction.resumeReading ∈ (read_pass s n dt exact).acts ↔
        (read_pass s n dt exact).s.recv_buf_len < s.limit) ∧
      ChanAction.pauseReading ∉ (read_pass s n dt exact).acts) ∧
    (∀ (s : SessionState) (dt : Datatype),
      allData (s.recv_buf dt) →
      (ChanAction.resumeReading ∈ (readline_pass s dt).acts ↔
        (readline_pass s dt).s.recv_buf_len < s.limit) ∧
      ChanAction.pauseReading ∉ (readline_pass s dt).acts) ∧
    (∀ (s : SessionState) (e : Exc) (rest : List QItem) (n : Int)
        (dt : Datatype) (exact : Bool),
      s.recv_buf dt = QItem.exc e :: rest → n ≠ 0 →
      (read_pass s n dt exact).acts = []) ∧
    (∀ (s : SessionState) (e : Exc) (rest : List QItem) (dt : Datatype),
      s.recv_buf dt = QItem.exc e :: rest →
      (readline_pass s dt).acts = []) ∧
    (∀ (s : SessionState) (d : Chunk) (e : Exc) (rest : List QItem)
        (dt : Datatype),
      s.recv_buf dt = QItem.chunk d :: QItem.exc e :: rest →
      d ≠ [] → d.findIdx? (· = 10) = none →
      (readline_pass s dt).acts = []) := by
  refine ⟨?_, ?_, ?_, ?_, ?_, ?_⟩
  · intro s d dt
    simp only [data_received, unblock_read]
    split_ifs with h1 h2 h3 <;> simp_all
  · intro s n dt exact had
    have hr := read_loop_raised_none (s.recv_buf dt) had n [] 0
    rw [read_pass_acts s n dt exact hr]
    rw [show (read_pass s n dt exact).s.recv_buf_len =
      s.recv_buf_len - (read_loop (s.recv_buf dt) n [] 0).consumed from
      (read_pass_state s n dt exact).2.1]
    split_ifs with h <;> simp [h]
  · intro s dt had
    obtain ⟨hr, hdef⟩ := readline_loop_no_raise 10 (s.recv_buf dt) had [] 0
    rw [readline_pass_acts s dt hr hdef]
    rw [show (readline_pass s dt).s.recv_buf_len =
      s.recv_buf_len - (readline_loop 10 (s.recv_buf dt) [] 0).consumed from
      (readline_pass_state s dt).2.1]
    split_ifs with h <;> simp [h]
  · intro s e rest n dt exact hq hn
    have hl : read_loop (s.recv_buf dt) n [] 0 = ⟨some e, [], rest, n, 0⟩ := by
      rw [hq]; exact read_loop_raise e rest n 0 hn
    simp only [read_pass, hl]
  · intro s e rest dt hq
    have hl : readline_loop 10 (s.recv_buf dt) [] 0 =
        ⟨some e, false, false, [], rest, 0⟩ := by
      rw [hq]; exact readline_loop_raise 10 e rest 0
    simp only [readline_pass, hl]
  · intro s d e rest dt hq hd hsep
    have hl : readline_loop 10 (s.recv_buf dt) [] 0 =
        ⟨none, false, true, [d], QItem.exc e :: rest, d.length⟩ := by
      rw [hq]
      simp only [readline_loop, hsep]
      simp [readline_loop_defer 10 e rest [d] (0 + d.length) (by simp)]
    simp only [readline_pass, hl]
    simp

/-- Witness for the amended C5: the spec's own scenario with `limit = 10`
on an error-free queue — appending 8 then 4 units requests a pause at 12,
and a 9-unit read that drains to 3 requests a resume. -/
theorem C5_watermark_amended_witness :
    (ChanAction.pauseReading ∈
      (data_received (deliver (connection_made 10 {0}) [[1, 2, 3, 4, 5, 6, 7, 8]] 0)
        [9, 9, 9, 9] 0).2 ↔
      (data_received (deliver (connection_made 10 {0}) [[1, 2, 3, 4, 5, 6, 7, 8]] 0)
        [9, 9, 9, 9] 0).1.recv_buf_len ≥
        (deliver (connection_made 10 {0}) [[1, 2, 3, 4, 5, 6, 7, 8]] 0).limit) ∧
    (ChanAction.resumeReading ∈
      (read_pass (deliver (connection_made 10 {0}) [[1, 2, 3, 4, 5, 6, 7, 8], [9, 9, 9, 9]] 0)
        9 0 false).acts ↔
      (read_pass (deliver (connection_made 10 {0}) [[1, 2, 3, 4, 5, 6, 7, 8], [9, 9, 9, 9]] 0)
        9 0 false).s.recv_buf_len <
        (deliver (connection_made 10 {0}) [[1, 2, 3, 4, 5, 6, 7, 8], [9, 9, 9, 9]] 0).limit) :=
  ⟨(C5_watermark_amended.1
      (deliver (connection_made 10 {0}) [[1, 2, 3, 4, 5, 6, 7, 8]] 0)
      [9, 9, 9, 9] 0).1,
   ((C5_watermark_amended.2.1
      (deliver (connection_made 10 {0}) [[1, 2, 3, 4, 5, 6, 7, 8], [9, 9, 9, 9]] 0)
      9 0 false) (by decide)).1⟩

/-! ### Claim C6 -/

/-- C6: `drain()` suspends iff writing is paused and the connection is not
yet lost (part a); the check after waking raises the recorded error when
the connection is lost (part b), a broken-pipe error when none was
recorded but writing is still paused (part c), and returns normally in
every other case (parts d, e); a drain parked by `drain_enter` is woken by
`connection_lost` — which empties the waiter collection — and the
subsequent check raises the recorded error, or a broken-pipe error when
none was supplied (part f); a drain woken instead by `resume_writing`
returns normally (part g). -/
theorem C6_drain_semantics (s s' : SessionState) :
    (drain_suspends s = true ↔
      s.write_paused = true ∧ s.connection_lost = false) ∧
    (∀ e, s'.connection_lost = true → s'.exception = some e →
      drain_finish s' = some e) ∧
    (s'.connection_lost = true → s'.exception = none →
      s'.write_paused = true → drain_finish s' = some Exc.brokenPipe) ∧
    (s'.connection_lost = false → drain_finish s' = none) ∧
    (s'.connection_lost = true → s'.exception = none →
      s'.write_paused = false → drain_finish s' = none) ∧
    (s.write_paused = true → s.connection_lost = false →
      (drain_enter s).drain_waiters = s.drain_waiters + 1 ∧
      ∀ e : Option Exc,
        (connection_lost_cb (drain_enter s) e).drain_waiters = 0 ∧
        drain_finish (connection_lost_cb (drain_enter s) e) =
          some (e.getD Exc.brokenPipe)) ∧
    (s.write_paused = true → s.connection_lost = false →
      (resume_writing (drain_enter s)).drain_waiters = 0 ∧
      drain_finish (resume_writing (drain_enter s)) = none) := by
  refine ⟨?_, ?_, ?_, ?_, ?_, ?_, ?_⟩
  · simp [drain_suspends]
  · intro e hl he; simp [drain_finish, hl, he]
  · intro hl he hp; simp [drain_finish, hl, he, hp]
  · intro hl; simp [drain_finish, hl]
  · intro hl he hp; simp [drain_finish, hl, he, hp]
  · intro hp hl
    have hen : drain_enter s = { s with drain_waiters := s.drain_waiters + 1 } := by
      simp [drain_enter, drain_suspends, hp, hl]
    refine ⟨by rw [hen], ?_⟩
    intro e
    cases he : s.eof_received with
    | false =>
      cases e <;>
        simp [hen, connection_lost_cb, eof_received_cb, unblock_drain,
          drain_finish, hp, he, Option.getD]
    | true =>
      cases e <;>
        simp [hen, connection_lost_cb, eof_received_cb, unblock_drain,
          drain_finish, hp, he, Option.getD]
  · intro hp hl
    have hen : drain_enter s = { s with drain_waiters := s.drain_waiters + 1 } := by
      simp [drain_enter, drain_suspends, hp, hl]
    constructor
    · simp [hen, resume_writing, unblock_drain]
    · simp [hen, resume_writing, unblock_drain, drain_finish, hl]

/-- Witness for C6 at a concrete paused, healthy session: the parked drain
is woken by a connection loss without a recorded error and raises the
broken-pipe error. -/
theorem C6_drain_semantics_witness :
    (drain_suspends (pause_writing (connection_made 100 {0})) = true ↔
      (pause_writing (connection_made 100 {0})).write_paused = true ∧
      (pause_writing (connection_made 100 {0})).connection_lost = false) ∧
    (connection_lost_cb (drain_enter (pause_writing (connection_made 100 {0})))
        none).drain_waiters = 0 ∧
    drain_finish (connection_lost_cb
        (drain_enter (pause_writing (connection_made 100 {0}))) none) =
      some ((none : Option Exc).getD Exc.brokenPipe) :=
  ⟨(C6_drain_semantics (pause_writing (connection_made 100 {0}))
      (pause_writing (connection_made 100 {0}))).1,
   ((C6_drain_semantics (pause_writing (connection_made 100 {0}))
      (pause_writing (connection_made 100 {0}))).2.2.2.2.2.1
      (by decide) (by decide)).2 none⟩

/-! ### Claim C7 -/

theorem read_pass_suspended_elim (s : SessionState) (n : Int) (dt : Datatype)
    (exact : Bool) (h : (read_pass s n dt exact).result = PassResult.suspended) :
    (read_loop (s.recv_buf dt) n [] 0).raised = none ∧
    ¬((read_loop (s.recv_buf dt) n [] 0).n = 0 ∨
      ((read_loop (s.recv_buf dt) n [] 0).n > 0 ∧
        (read_loop (s.recv_buf dt) n [] 0).acc ≠ [] ∧ exact = false) ∨
      s.eof_received = true) ∧
    s.read_waiter dt = false := by
  cases hr : (read_loop (s.recv_buf dt) n [] 0).raised with
  | some e => simp [read_pass, hr] at h
  | none =>
    refine ⟨rfl, ?_, ?_⟩ <;>
      · simp only [read_pass, hr] at h
        split_ifs at h with h1 <;>
          simp_all [block_read] <;>
          split_ifs at h <;> simp_all

theorem read_pass_blocked_usage (s : SessionState) (n : Int) (dt : Datatype)
    (exact : Bool)
    (hr : (read_loop (s.recv_buf dt) n [] 0).raised = none)
    (hnc : ¬((read_loop (s.recv_buf dt) n [] 0).n = 0 ∨
      ((read_loop (s.recv_buf dt) n [] 0).n > 0 ∧
        (read_loop (s.recv_buf dt) n [] 0).acc ≠ [] ∧ exact = false) ∨
      s.eof_received = true))
    (hw : s.read_waiter dt = true) :
    (read_pass s n dt exact).result = PassResult.raised Exc.runtimeError ∧
    (read_pass s n dt exact).s.read_waiter dt = true := by
  simp only [read_pass, hr]
  rw [if_neg (by simpa using hnc)]
  simp only [block_read]
  rw [if_pos (by simpa using hw)]
  exact ⟨rfl, hw⟩

theorem readline_pass_suspended_elim (s : SessionState) (dt : Datatype)
    (h : (readline_pass s dt).result = PassResult.suspended) :
    (readline_loop 10 (s.recv_buf dt) [] 0).raised = none ∧
    (readline_loop 10 (s.recv_buf dt) [] 0).deferred = false ∧
    (readline_loop 10 (s.recv_buf dt) [] 0).found = false ∧
    s.eof_received = false ∧
    s.read_waiter dt = false := by
  cases hr : (readline_loop 10 (s.recv_buf dt) [] 0).raised with
  | some e => simp [readline_pass, hr] at h
  | none =>
    refine ⟨rfl, ?_, ?_, ?_, ?_⟩ <;>
      · simp only [readline_pass, hr] at h
        split_ifs at h with h1 <;>
          simp_all [block_read] <;>
          split_ifs at h <;> simp_all

theorem readline_pass_blocked_usage (s : SessionState) (dt : Datatype)
    (hr : (readline_loop 10 (s.recv_buf dt) [] 0).raised = none)
    (hdef : (readline_loop 10 (s.recv_buf dt) [] 0).deferred = false)
    (hfound : (readline_loop 10 (s.recv_buf dt) [] 0).found = false)
    (heof : s.eof_received = false)
    (hw : s.read_waiter dt = true) :
    (readline_pass s dt).result = PassResult.raised Exc.runtimeError ∧
    (readline_pass s dt).s.read_waiter dt = true := by
  simp only [readline_pass, hr, hdef]
  rw [if_neg (by simp)]
  rw [if_neg (by simp [hfound])]
  rw [if_neg (by simp [heof])]
  simp only [block_read]
  rw [if_pos (by simpa using hw)]
  exact ⟨rfl, hw⟩

/-- C7: at most one reader may be suspended per datatype.  `_block_read`
with an occupied waiter slot raises the usage `RuntimeError` (part a); a
read pass (part b) or readline pass (part c) that would suspend — i.e. the
same pass suspends when the slot is free — instead raises the usage error
when the slot is occupied, leaving the first waiter's slot set and the
queue state identical; the parked waiter is still woken (its slot cleared)
by the next `data_received` (part d), `eof_received` (part e) or
`connection_lost` before EOF (part f). -/
theorem C7_single_waiter :
    (∀ (s : SessionState) (dt : Datatype), s.read_waiter dt = true →
      block_read s dt = Except.error Exc.runtimeError) ∧
    (∀ (s : SessionState) (n : Int) (dt : Datatype) (exact : Bool),
      s.read_waiter dt = true →
      (read_pass { s with read_waiter := Function.update s.read_waiter dt false }
        n dt exact).result = PassResult.suspended →
      (read_pass s n dt exact).result = PassResult.raised Exc.runtimeError ∧
      (read_pass s n dt exact).s.read_waiter dt = true ∧
      (read_pass s n dt exact).s.recv_buf =
        (read_pass { s with read_waiter := Function.update s.read_waiter dt false }
          n dt exact).s.recv_buf) ∧
    (∀ (s : SessionState) (dt : Datatype),
      s.read_waiter dt = true →
      (readline_pass { s with read_waiter := Function.update s.read_waiter dt false }
        dt).result = PassResult.suspended →
      (readline_pass s dt).result = PassResult.raised Exc.runtimeError ∧
      (readline_pass s dt).s.read_waiter dt = true) ∧
    (∀ (s : SessionState) (d : Chunk) (dt : Datatype),
      (data_received s d dt).1.read_waiter dt = false) ∧
    (∀ (s : SessionState) (dt : Datatype), dt ∈ s.dtypes →
      (eof_received_cb s).read_waiter dt = false) ∧
    (∀ (s : SessionState) (e : Option Exc) (dt : Datatype), dt ∈ s.dtypes →
      s.eof_received = false →
      (connection_lost_cb s e).read_waiter dt = false) := by
  refine ⟨?_, ?_, ?_, ?_, ?_, ?_⟩
  · intro s dt hw
    simp [block_read, hw]
  · intro s n dt exact hw hsusp
    obtain ⟨hr, hnc, _⟩ := read_pass_suspended_elim _ n dt exact hsusp
    obtain ⟨h1, h2⟩ := read_pass_blocked_usage s n dt exact hr hnc hw
    refine ⟨h1, h2, ?_⟩
    rw [(read_pass_state s n dt exact).1,
      (read_pass_state { s with read_waiter := Function.update s.read_waiter dt false }
        n dt exact).1]
  · intro s dt hw hsusp
    obtain ⟨hr, hdef, hfound, heof, _⟩ := readline_pass_suspended_elim _ dt hsusp
    exact readline_pass_blocked_usage s dt hr hdef hfound heof hw
  · intro s d dt
    simp only [data_received, unblock_read]
    split_ifs with h1 <;> simp_all [Function.update_same]
  · intro s dt hdt
    simp [eof_received_cb, hdt]
  · intro s e dt hdt heof
    cases e <;>
      simp [connection_lost_cb, eof_received_cb, unblock_drain, heof, hdt] <;>
      split_ifs <;> simp [hdt]

/-- Witness for C7: with a waiter parked on datatype 0 of an empty, not yet
EOF-ed session, a second read that needs to suspend raises the usage error
and leaves the slot set; a subsequent `data_received` clears it. -/
theorem C7_single_waiter_witness :
    (read_pass
        { connection_made 100 {0} with
            read_waiter := Function.update (connection_made 100 {0}).read_waiter 0 true }
        5 0 false).result = PassResult.raised Exc.runtimeError ∧
    (read_pass
        { connection_made 100 {0} with
            read_waiter := Function.update (connection_made 100 {0}).read_waiter 0 true }
        5 0 false).s.read_waiter 0 = true := by
  have h := (C7_single_waiter.2.1
    { connection_made 100 {0} with
        read_waiter := Function.update (connection_made 100 {0}).read_waiter 0 true }
    5 0 false (by simp [Function.update_same]) (by decide))
  exact ⟨h.1, h.2.1⟩

/-! ### Claim C8 -/

theorem sum_dataLen_update (dtypes : Finset Datatype) (f : Datatype → List QItem)
    (dt : Datatype) (hdt : dt ∈ dtypes) (q : List QItem) :
    (dtypes.sum fun x => (dataLen (Function.update f dt q x) : Int)) =
      (dtypes.sum fun x => (dataLen (f x) : Int)) -
        dataLen (f dt) + dataLen q := by
  have hfn : (fun x => (dataLen (Function.update f dt q x) : Int)) =
      Function.update (fun x => (dataLen (f x) : Int)) dt (dataLen q) := by
    funext x
    by_cases hx : x = dt
    · subst hx; simp [Function.update_same]
    · simp [Function.update_noteq hx]
  rw [hfn, Finset.sum_update_of_mem hdt]
  rw [Finset.sum_eq_sum_diff_singleton_add hdt (fun x => (dataLen (f x) : Int))]
  ring

theorem bufInv_data_received (s : SessionState) (d : Chunk) (dt : Datatype)
    (h : bufInv s) (hdt : dt ∈ s.dtypes) : bufInv (data_received s d dt).1 := by
  obtain ⟨hsum, hout⟩ := h
  have hst := data_received_state s d dt
  constructor
  · rw [hst.2.1, hst.1, hst.2.2.2.1]
    rw [sum_dataLen_update s.dtypes s.recv_buf dt hdt
      (s.recv_buf dt ++ [QItem.chunk d])]
    rw [dataLen_append]
    simp [dataLen, hsum]
    ring
  · intro x hx
    rw [hst.2.2.2.1] at hx
    rw [hst.1]
    have hne : x ≠ dt := fun hcontra => hx (hcontra ▸ hdt)
    rw [Function.update_noteq hne]
    exact hout x hx

theorem bufInv_eof_received (s : SessionState) (h : bufInv s) :
    bufInv (eof_received_cb s) := by
  obtain ⟨hsum, hout⟩ := h
  exact ⟨hsum, hout⟩

theorem bufInv_connection_lost (s : SessionState) (e : Option Exc)
    (h : bufInv s) : bufInv (connection_lost_cb s e) := by
  obtain ⟨hsum, hout⟩ := h
  have hbuf : (connection_lost_cb s e).recv_buf = s.recv_buf ∨
      (connection_lost_cb s e).recv_buf =
        fun d => if d ∈ s.dtypes then s.recv_buf d ++ [QItem.exc (e.getD Exc.brokenPipe)]
                 else s.recv_buf d := by
    cases he : s.eof_received <;> cases e <;>
      simp [connection_lost_cb, eof_received_cb, unblock_drain, he] <;>
      split_ifs <;> simp [Option.getD]
  have hlen : (connection_lost_cb s e).recv_buf_len = s.recv_buf_len := by
    cases he : s.eof_received <;> cases e <;>
      simp [connection_lost_cb, eof_received_cb, unblock_drain, he] <;>
      split_ifs <;> rfl
  have hdts : (connection_lost_cb s e).dtypes = s.dtypes := by
    cases he : s.eof_received <;> cases e <;>
      simp [connection_lost_cb, eof_received_cb, unblock_drain, he] <;>
      split_ifs <;> rfl
  constructor
  · rw [hlen, hdts]
    cases hbuf with
    | inl hb => rw [hb]; exact hsum
    | inr hb =>
      rw [hb, hsum]
      apply Finset.sum_congr rfl
      intro x hx
      simp [hx, dataLen_append, dataLen]
  · intro x hx
    rw [hdts] at hx
    cases hbuf with
    | inl hb => rw [hb]; exact hout x hx
    | inr hb =>
      rw [hb]
      simp [hx]
      exact hout x hx

theorem bufInv_read_pass (s : SessionState) (n : Int) (dt : Datatype)
    (exact : Bool) (h : bufInv s) (hdt : dt ∈ s.dtypes) :
    bufInv (read_pass s n dt exact).s := by
  obtain ⟨hsum, hout⟩ := h
  have hst := read_pass_state s n dt exact
  have hcons := read_loop_consumed (s.recv_buf dt) n [] 0
  constructor
  · rw [hst.2.1, hst.1, hst.2.2.2.1]
    rw [sum_dataLen_update s.dtypes s.recv_buf dt hdt
      (read_loop (s.recv_buf dt) n [] 0).queue]
    rw [hsum]
    push_cast
    omega
  · intro x hx
    rw [hst.2.2.2.1] at hx
    rw [hst.1]
    have hne : x ≠ dt := fun hcontra => hx (hcontra ▸ hdt)
    rw [Function.update_noteq hne]
    exact hout x hx

theorem bufInv_readline_pass (s : SessionState) (dt : Datatype)
    (h : bufInv s) (hdt : dt ∈ s.dtypes) :
    bufInv (readline_pass s dt).s := by
  obtain ⟨hsum, hout⟩ := h
  have hst := readline_pass_state s dt
  have hcons := readline_loop_consumed 10 (s.recv_buf dt) [] 0
  constructor
  · rw [hst.2.1, hst.1, hst.2.2.2.1]
    rw [sum_dataLen_update s.dtypes s.recv_buf dt hdt
      (readline_loop 10 (s.recv_buf dt) [] 0).queue]
    rw [hsum]
    push_cast
    omega
  · intro x hx
    rw [hst.2.2.2.1] at hx
    rw [hst.1]
    have hne : x ≠ dt := fun hcontra => hx (hcontra ▸ hdt)
    rw [Function.update_noteq hne]
    exact hout x hx

theorem apply_op_dtypes (s : SessionState) (op : Op) :
    (apply_op s op).dtypes = s.dtypes := by
  cases op with
  | dataRx d dt => exact (data_received_state s d dt).2.2.2.1
  | eofRx => rfl
  | connLost e =>
    cases he : s.eof_received <;> cases e <;>
      simp [apply_op, connection_lost_cb, eof_received_cb, unblock_drain, he] <;>
      split_ifs <;> rfl
  | readStep n dt exact => exact (read_pass_state s n dt exact).2.2.2.1
  | readlineStep dt => exact (readline_pass_state s dt).2.2.2.1

theorem bufInv_apply_op (s : SessionState) (op : Op) (h : bufInv s)
    (hvalid : ∀ dt, opDatatype op = some dt → dt ∈ s.dtypes) :
    bufInv (apply_op s op) := by
  cases op with
  | dataRx d dt =>
    exact bufInv_data_received s d dt h (hvalid dt rfl)
  | eofRx => exact bufInv_eof_received s h
  | connLost e => exact bufInv_connection_lost s e h
  | readStep n dt exact =>
    exact bufInv_read_pass s n dt exact h (hvalid dt rfl)
  | readlineStep dt =>
    exact bufInv_readline_pass s dt h (hvalid dt rfl)

theorem bufInv_apply_ops (ops : List Op) : ∀ s : SessionState, bufInv s →
    validOps s.dtypes ops → bufInv (apply_ops s ops) := by
  induction ops with
  | nil => intro s h _; exact h
  | cons op ops ih =>
    intro s h hvalid
    have h1 : bufInv (apply_op s op) :=
      bufInv_apply_op s op h
        (fun dt hdt => hvalid op (List.mem_cons_self _ _) dt hdt)
    have h2 : validOps (apply_op s op).dtypes ops := by
      rw [apply_op_dtypes]
      intro o ho dt hdt
      exact hvalid o (List.mem_cons_of_mem _ ho) dt hdt
    exact ih (apply_op s op) h1 h2

theorem bufInv_connection_made (limit : Int) (dtypes : Finset Datatype) :
    bufInv (connection_made limit dtypes) := by
  constructor
  · simp [connection_made, dataLen]
  · intro x _; rfl

/-- C8: starting from `connection_made`, after any sequence of
`data_received`, `eof_received`, `connection_lost`, read-pass and
readline-pass steps on declared datatypes, `recv_buf_len` equals the sum
over all datatypes of the payload lengths of their buffered data chunks,
terminal markers excluded. -/
theorem C8_recv_buf_len_invariant (limit : Int) (dtypes : Finset Datatype)
    (ops : List Op) (hvalid : validOps dtypes ops) :
    (apply_ops (connection_made limit dtypes) ops).recv_buf_len =
      (apply_ops (connection_made limit dtypes) ops).dtypes.sum
        (fun d =>
          (dataLen ((apply_ops (connection_made limit dtypes) ops).recv_buf d) : Int)) :=
  (bufInv_apply_ops ops (connection_made limit dtypes)
    (bufInv_connection_made limit dtypes) hvalid).1

/-- Witness for C8 on a concrete mixed schedule over two datatypes,
including a readline that splits a chunk, a partial read and a connection
loss. -/
theorem C8_recv_buf_len_invariant_witness :
    (apply_ops (connection_made 10 {0, 1})
        [Op.dataRx [65, 66, 10, 67] 0, Op.dataRx [1, 2, 3] 1,
         Op.readlineStep 0, Op.readStep 2 1 false,
         Op.connLost (some (Exc.transport 3)), Op.readStep (-1) 0 false]).recv_buf_len =
      (apply_ops (connection_made 10 {0, 1})
        [Op.dataRx [65, 66, 10, 67] 0, Op.dataRx [1, 2, 3] 1,
         Op.readlineStep 0, Op.readStep 2 1 false,
         Op.connLost (some (Exc.transport 3)), Op.readStep (-1) 0 false]).dtypes.sum
        (fun d =>
          (dataLen ((apply_ops (connection_made 10 {0, 1})
            [Op.dataRx [65, 66, 10, 67] 0, Op.dataRx [1, 2, 3] 1,
             Op.readlineStep 0, Op.readStep 2 1 false,
             Op.connLost (some (Exc.transport 3)), Op.readStep (-1) 0 false]).recv_buf d) : Int)) :=
  C8_recv_buf_len_invariant 10 {0, 1}
    [Op.dataRx [65, 66, 10, 67] 0, Op.dataRx [1, 2, 3] 1,
     Op.readlineStep 0, Op.readStep 2 1 false,
     Op.connLost (some (Exc.transport 3)), Op.readStep (-1) 0 false]
    (by decide)

end AsyncSSH
